import Mathlib

/-!
Verification of the real-time message delivery engine of the
Secure-Server-Messaging repository (services/MessageService.js,
controllers/MessageController.js, index.js cluster master).

The JavaScript source is shallowly embedded: JS `Map`s become association
lists, JS `Set`s become duplicate-free string lists, integer counters that
may go negative become `Int`, the floating-point load ratio becomes `ℚ`
(all thresholds in the source — 5000·0.9, 5000·0.7, load ≥ 0.9, ⌈load·5⌉ —
evaluate at reachable integer/rational arguments to the same values under
IEEE-754 double arithmetic as under exact rational arithmetic, since the
rounding error of the literals 0.9 and 0.7 is far below the spacing of the
reachable quotients; e.g. `Math.floor(5000*0.7)` is exactly 3500 and
`5000*0.9` compares against integer lengths exactly like 4500).
-/

/-- A chat message as handed to `MessageService.broadcastMessage` /
`hasMessageForUser` (services/MessageService.js).  `mid` is
`message._id.toString()`; `recipients` is `Option` because the scan in
`hasMessageForUser` guards `!message.recipients`; `queued` is the
`_queued` bookkeeping flag. The opaque payload fields (ciphertext, iv,
recipientKeys, sender, timestamp) play no role in the verified logic and
are omitted. -/
structure Message where
  mid : String
  recipients : Option (List String)
  queued : Bool
deriving DecidableEq, Repr

/-- Value stored in `connectedClients` for a held poll session:
`{ res, username, timestamp }`.  The response handle `res` is external
I/O; whether `res.json` succeeds is passed to the delivery step as an
oracle Boolean. -/
structure ClientData where
  username : String
  timestamp : Nat
deriving DecidableEq, Repr

/-- Value stored in `messageDeliveryTracker` for one message id:
`{ deliveredTo : Set<username>, timestamp }`. -/
structure DeliveryRecord where
  deliveredTo : List String
  timestamp : Nat
deriving DecidableEq, Repr

/-- In-memory state of a `MessageService` instance
(services/MessageService.js constructor). -/
structure MessageService where
  connectedClients : List (String × ClientData)
  messageQueue : List Message
  messageDeliveryTracker : List (String × DeliveryRecord)
  messageBatch : List Message
  activeConnections : Int
deriving DecidableEq, Repr

/-! ### Association-list model of JS `Map` -/

/-- `Map.prototype.get` / `has`. -/
def alistLookup {α β : Type} [BEq α] : List (α × β) → α → Option β
  | [], _ => none
  | (k', v) :: rest, k => if k' == k then some v else alistLookup rest k

/-- `Map.prototype.set`: replace in place when the key is present,
append otherwise. -/
def alistSet {α β : Type} [BEq α] : List (α × β) → α → β → List (α × β)
  | [], k, v => [(k, v)]
  | (k', v') :: rest, k, v =>
    if k' == k then (k, v) :: rest else (k', v') :: alistSet rest k v

/-- `Map.prototype.delete` (keys are unique in a JS `Map`, so removing
the first match is exact). -/
def alistErase {α β : Type} [BEq α] : List (α × β) → α → List (α × β)
  | [], _ => []
  | (k', v') :: rest, k =>
    if k' == k then rest else (k', v') :: alistErase rest k

theorem alistLookup_set_self {α β : Type} [BEq α] [LawfulBEq α]
    (l : List (α × β)) (k : α) (v : β) :
    alistLookup (alistSet l k v) k = some v := by
  induction l with
  | nil => simp [alistLookup, alistSet]
  | cons p rest ih =>
    by_cases h : p.1 == k
    · simp [alistSet, alistLookup, h]
    · simp [alistSet, alistLookup, h, ih]

theorem alistLookup_set_ne {α β : Type} [BEq α] [LawfulBEq α]
    (l : List (α × β)) (k k' : α) (v : β) (h : k ≠ k') :
    alistLookup (alistSet l k v) k' = alistLookup l k' := by
  induction l with
  | nil => simp [alistLookup, alistSet, h]
  | cons p rest ih =>
    by_cases hp : p.1 == k
    · have hp' : p.1 = k := by simpa using hp
      simp [alistSet, alistLookup, hp, hp', h]
    · simp only [alistSet, alistLookup, if_neg hp]
      by_cases hq : p.1 == k'
      · simp [alistLookup, hq]
      · simp [alistLookup, hq, ih]

theorem alistSet_length_of_none {α β : Type} [BEq α]
    (l : List (α × β)) (k : α) (v : β) (h : alistLookup l k = none) :
    (alistSet l k v).length = l.length + 1 := by
  induction l with
  | nil => simp [alistSet]
  | cons p rest ih =>
    by_cases hp : p.1 == k
    · simp [alistLookup, hp] at h
    · simp only [alistLookup, if_neg hp] at h
      simp [alistSet, if_neg hp, ih h]

theorem alistErase_length {α β : Type} [BEq α]
    (l : List (α × β)) (k : α) (v : β) (h : alistLookup l k = some v) :
    l.length = (alistErase l k).length + 1 := by
  induction l with
  | nil => simp [alistLookup] at h
  | cons p rest ih =>
    by_cases hp : p.1 == k
    · simp [alistErase, hp]
    · simp only [alistLookup, if_neg hp] at h
      simp [alistErase, if_neg hp, ih h]

theorem alistErase_of_none {α β : Type} [BEq α]
    (l : List (α × β)) (k : α) (h : alistLookup l k = none) :
    alistErase l k = l := by
  induction l with
  | nil => simp [alistErase]
  | cons p rest ih =>
    by_cases hp : p.1 == k
    · simp [alistLookup, hp] at h
    · simp only [alistLookup, if_neg hp] at h
      simp [alistErase, if_neg hp, ih h]

/-! ### `Set` insertion -/

/-- `Set.prototype.add` on a duplicate-free list. -/
def setInsert (s : List String) (u : String) : List String :=
  if s.contains u then s else u :: s

theorem setInsert_contains_self (s : List String) (u : String) :
    (setInsert s u).contains u = true := by
  unfold setInsert
  by_cases h : s.contains u
  · rw [if_pos h]; exact h
  · rw [if_neg h]
    simp [List.contains_cons]

theorem setInsert_contains_ne (s : List String) (u w : String) (h : w ≠ u) :
    (setInsert s w).contains u = s.contains u := by
  unfold setInsert
  by_cases hc : s.contains w
  · rw [if_pos hc]
  · rw [if_neg hc]
    have hne : (u == w) = false := by
      refine beq_false_of_ne ?_
      exact fun e => h e.symm
    rw [List.contains_cons, hne, Bool.false_or]

/-! ### Queue trimming (cleanup sweep, services/MessageService.js lines 71-76)

`MAX_QUEUE_SIZE = 5000`; the sweep fires when
`messageQueue.length > MAX_QUEUE_SIZE * 0.9` (i.e. > 4500) and removes
`length - Math.floor(MAX_QUEUE_SIZE * 0.7)` (i.e. `length - 3500`) entries
from the front via `splice(0, removed)`. -/

def MAX_QUEUE_SIZE : Nat := 5000

def trimQueue (q : List Message) : List Message :=
  if q.length > 4500 then q.drop (q.length - 3500) else q

/-- C5: The periodic sweep trims the message queue only when its length
exceeds the high watermark 4500 = 0.9·5000; whenever it trims it removes
the oldest entries and leaves the queue at exactly the low watermark
3500 = ⌊0.7·5000⌋, never below it; a sweep at or below the high watermark
leaves the queue unchanged. -/
theorem c5_trim_watermarks (q : List Message) :
    (q.length ≤ 4500 → trimQueue q = q) ∧
    (4500 < q.length →
      trimQueue q = q.drop (q.length - 3500) ∧
      (trimQueue q).length = 3500 ∧
      3500 ≤ (trimQueue q).length) := by
  constructor
  · intro h
    unfold trimQueue
    rw [if_neg (by omega)]
  · intro h
    have htrim : trimQueue q = q.drop (q.length - 3500) := by
      unfold trimQueue
      rw [if_pos (by omega)]
    refine ⟨htrim, ?_, ?_⟩
    · rw [htrim, List.length_drop]; omega
    · rw [htrim, List.length_drop]; omega

/-- Witness for C5 at a concrete queue of length 4501: the sweep trims it
to exactly 3500 by dropping the oldest 1001 entries. -/
theorem c5_trim_watermarks_witness :
    trimQueue (List.replicate 4501 (Message.mk "m" none false)) =
        (List.replicate 4501 (Message.mk "m" none false)).drop
          ((List.replicate 4501 (Message.mk "m" none false)).length - 3500) ∧
      (trimQueue (List.replicate 4501 (Message.mk "m" none false))).length = 3500 := by
  have h := (c5_trim_watermarks
    (List.replicate 4501 (Message.mk "m" none false))).2
    (by simp only [List.length_replicate]; omega)
  exact ⟨h.1, h.2.1⟩

/-- C8 counterexample: with the queue at length 5001 the sweep trims to
3500 entries, but it does so by dropping the oldest 1501 entries, not
1500 as the claim states. -/
theorem c8_trim_counterexample :
    (trimQueue (List.replicate 5001 (Message.mk "m" none false))).length = 3500 ∧
    (List.replicate 5001 (Message.mk "m" none false)).length -
        (trimQueue (List.replicate 5001 (Message.mk "m" none false))).length = 1501 ∧
    (1501 : Nat) ≠ 1500 := by
  refine ⟨?_, ?_, by decide⟩
  · unfold trimQueue
    rw [if_pos (by simp only [List.length_replicate]; omega)]
    simp only [List.length_drop, List.length_replicate]
  · unfold trimQueue
    rw [if_pos (by simp only [List.length_replicate]; omega)]
    simp only [List.length_drop, List.length_replicate]

/-- C8 amended: if the message queue holds 5000 messages and one more
arrives (length 5001), the next cleanup sweep trims the queue to exactly
3500 entries by dropping the oldest 1501 entries. -/
theorem c8_trim_amended :
    trimQueue (List.replicate 5001 (Message.mk "m" none false)) =
      (List.replicate 5001 (Message.mk "m" none false)).drop 1501 ∧
    (trimQueue (List.replicate 5001 (Message.mk "m" none false))).length = 3500 := by
  constructor
  · unfold trimQueue
    rw [if_pos (by simp only [List.length_replicate]; omega)]
    simp only [List.length_replicate]
  · unfold trimQueue
    rw [if_pos (by simp only [List.length_replicate]; omega)]
    simp only [List.length_drop, List.length_replicate]

/-! ### MessageService operations (services/MessageService.js) -/

/-- `addClient(clientId, res, username)` (lines 202-210): insert the
session and increment `activeConnections`. -/
def addClient (st : MessageService) (clientId username : String) (now : Nat) :
    MessageService :=
  { st with
    connectedClients := alistSet st.connectedClients clientId ⟨username, now⟩,
    activeConnections := st.activeConnections + 1 }

/-- `removeClient(clientId)` (lines 212-219): delete and decrement only
when the session is present; returns whether it was. -/
def removeClient (st : MessageService) (clientId : String) :
    MessageService × Bool :=
  match alistLookup st.connectedClients clientId with
  | some _ =>
    ({ st with
        connectedClients := alistErase st.connectedClients clientId,
        activeConnections := st.activeConnections - 1 }, true)
  | none => (st, false)

/-- One tick of `initCleanupInterval` (lines 51-95): expire sessions older
than 10 s (decrementing the counter per deletion), trim the queue via the
watermarks, and TTL-sweep delivery records older than 10 min. -/
def cleanupTick (st : MessageService) (now : Nat) : MessageService :=
  let clients' := st.connectedClients.filter
    (fun p => decide (¬ ((now : Int) - (p.2.timestamp : Int) > 10000)))
  let expired := st.connectedClients.length - clients'.length
  { st with
    connectedClients := clients',
    activeConnections := st.activeConnections - (expired : Int),
    messageQueue := trimQueue st.messageQueue,
    messageDeliveryTracker := st.messageDeliveryTracker.filter
      (fun p => decide (¬ ((p.2.timestamp : Int) < (now : Int) - 600000))) }

/-- The tracker-creation prologue of `broadcastMessage` (lines 107-113):
create an empty delivery record for the message when none exists. -/
def broadcastInit (st : MessageService) (message : Message) (now : Nat) :
    MessageService :=
  match alistLookup st.messageDeliveryTracker message.mid with
  | some _ => st
  | none =>
    { st with
      messageDeliveryTracker :=
        alistSet st.messageDeliveryTracker message.mid ⟨[], now⟩ }

/-- One iteration of the delivery loop of `broadcastMessage`
(lines 123-157) on a snapshot entry `(clientId, client)`.  `resOk` is
whether `client.res.json(...)` returned without throwing.  Returns the new
state and whether the message was handed to this client.  Skips
non-recipients and already-delivered recipients; on a successful send it
records the recipient in the delivery set and removes the session; on a
throw it removes the session without recording.  In both the success and
the error branch the source runs `connectedClients.delete(clientId)` and
`activeConnections--` unconditionally, whether or not the snapshot entry
is still present in the registry. -/
def broadcastClientStep (st : MessageService) (message : Message)
    (clientId : String) (client : ClientData) (resOk : Bool) :
    MessageService × Bool :=
  let recipients := message.recipients.getD []
  if recipients.contains client.username then
    match alistLookup st.messageDeliveryTracker message.mid with
    | some rec =>
      if rec.deliveredTo.contains client.username then (st, false)
      else if resOk then
        ({ st with
            messageDeliveryTracker :=
              alistSet st.messageDeliveryTracker message.mid
                ⟨setInsert rec.deliveredTo client.username, rec.timestamp⟩,
            connectedClients := alistErase st.connectedClients clientId,
            activeConnections := st.activeConnections - 1 }, true)
      else
        ({ st with
            connectedClients := alistErase st.connectedClients clientId,
            activeConnections := st.activeConnections - 1 }, false)
    | none =>
      if resOk then
        ({ st with
            connectedClients := alistErase st.connectedClients clientId,
            activeConnections := st.activeConnections - 1 }, true)
      else
        ({ st with
            connectedClients := alistErase st.connectedClients clientId,
            activeConnections := st.activeConnections - 1 }, false)
  else (st, false)

/-- `markMessageDelivered(messageId, username)` (lines 239-250). -/
def markMessageDelivered (st : MessageService) (messageId username : String)
    (now : Nat) : MessageService :=
  match alistLookup st.messageDeliveryTracker messageId with
  | none =>
    { st with
      messageDeliveryTracker :=
        alistSet st.messageDeliveryTracker messageId ⟨[username], now⟩ }
  | some rec =>
    { st with
      messageDeliveryTracker :=
        alistSet st.messageDeliveryTracker messageId
          ⟨setInsert rec.deliveredTo username, now⟩ }

/-- Match predicate of the queue scan in `hasMessageForUser`
(lines 221-237): the user is a recipient and is not yet in the message's
delivery set (a missing record counts as undelivered). -/
def queueMatch (tracker : List (String × DeliveryRecord)) (u : String)
    (m : Message) : Bool :=
  match m.recipients with
  | none => false
  | some rs =>
    rs.contains u &&
      (match alistLookup tracker m.mid with
       | none => true
       | some rec => !(rec.deliveredTo.contains u))

/-- The scan loop body of `hasMessageForUser`: first match wins. -/
def scanFor (tracker : List (String × DeliveryRecord)) (u : String) :
    List Message → Option (Message × String)
  | [] => none
  | m :: rest =>
    if queueMatch tracker u m then some (m, m.mid) else scanFor tracker u rest

/-- `hasMessageForUser(username)` (lines 221-237): linear scan of the
first `min(length, 1000)` entries of `messageQueue` — the queue is pushed
at the tail, so these are the oldest queued messages. -/
def hasMessageForUser (st : MessageService) (username : String) :
    Option (Message × String) :=
  scanFor st.messageDeliveryTracker username (st.messageQueue.take 1000)

/-- Modelled from the spec: the spec's poll-handler QUEUE_SCAN step is "a
linear scan of the most recent K queued messages, K bounded, e.g. 1000".
The most recent 1000 queued messages are the last 1000 of the
time-ordered queue, scanned here in queue order. -/
def hasMessageForUserRecent (st : MessageService) (username : String) :
    Option (Message × String) :=
  scanFor st.messageDeliveryTracker username
    (st.messageQueue.drop (st.messageQueue.length - 1000))

/-- The queue-hit path of `MessageController.pollMessages`
(controllers/MessageController.js lines 29-43): scan, and on a hit mark
delivery and respond in one synchronous (suspension-free) transition. -/
def pollQueueHit (st : MessageService) (username : String) (now : Nat) :
    MessageService × Option (Message × String) :=
  match hasMessageForUser st username with
  | some (m, mid) => (markMessageDelivered st mid username now, some (m, mid))
  | none => (st, none)

/-! ### C10: the `activeConnections` counter vs. the registry size -/

/-- Effect of one delivery step on the registry and the counter: either
both are untouched (skip branches), or the step runs
`connectedClients.delete(clientId)` together with `activeConnections--`
(deliver and error branches). -/
theorem broadcastClientStep_registry (st : MessageService) (m : Message)
    (cid : String) (c : ClientData) (resOk : Bool) :
    ((broadcastClientStep st m cid c resOk).1.connectedClients =
        st.connectedClients ∧
      (broadcastClientStep st m cid c resOk).1.activeConnections =
        st.activeConnections) ∨
    ((broadcastClientStep st m cid c resOk).1.connectedClients =
        alistErase st.connectedClients cid ∧
      (broadcastClientStep st m cid c resOk).1.activeConnections =
        st.activeConnections - 1) := by
  unfold broadcastClientStep
  dsimp only
  split
  · split
    · split
      · exact Or.inl ⟨rfl, rfl⟩
      · split
        · exact Or.inr ⟨rfl, rfl⟩
        · exact Or.inr ⟨rfl, rfl⟩
    · split
      · exact Or.inr ⟨rfl, rfl⟩
      · exact Or.inr ⟨rfl, rfl⟩
  · exact Or.inl ⟨rfl, rfl⟩

/-- The accounting invariant of C10: the counter equals the number of
held poll sessions. -/
def connInv (st : MessageService) : Prop :=
  st.activeConnections = (st.connectedClients.length : Int)

instance (st : MessageService) : Decidable (connInv st) := by
  unfold connInv; infer_instance

/-- C10 counterexample: a delivery step of `broadcastMessage` whose
snapshot entry is no longer registered (possible when a timeout or
disconnect `removeClient` runs between two broadcast slices) decrements
`activeConnections` although the registry is unchanged, breaking the
counter/size equality.  Concretely: empty registry, counter 0, stale
entry for client "c1"/"u" on a message addressed to "u". -/
theorem c10_counter_counterexample :
    connInv ⟨[], [], [], [], 0⟩ ∧
    ¬ connInv (broadcastClientStep ⟨[], [], [], [], 0⟩
        (Message.mk "m1" (some ["u"]) false) "c1" ⟨"u", 0⟩ false).1 := by
  constructor
  · decide
  · decide

/-- C10 amended: after `addClient` with a fresh client id, after
`removeClient`, after a cleanup-sweep tick, and after every delivery step
of `broadcastMessage` (success or error branch) whose snapshot entry is
still registered, `activeConnections` equals `connectedClients.size`.
(The unguarded delete-and-decrement of a delivery step breaks the
equality when the entry was already removed between slices, per the
counterexample.) -/
theorem c10_counter_invariant_amended (st : MessageService)
    (h : connInv st) :
    (∀ cid u now, alistLookup st.connectedClients cid = none →
      connInv (addClient st cid u now)) ∧
    (∀ cid, connInv (removeClient st cid).1) ∧
    (∀ now, connInv (cleanupTick st now)) ∧
    (∀ m cid c resOk, (alistLookup st.connectedClients cid).isSome →
      connInv (broadcastClientStep st m cid c resOk).1) := by
  unfold connInv at h
  refine ⟨?_, ?_, ?_, ?_⟩
  · intro cid u now hfresh
    unfold connInv addClient
    simp only
    rw [alistSet_length_of_none _ _ _ hfresh]
    push_cast
    omega
  · intro cid
    unfold removeClient
    cases hl : alistLookup st.connectedClients cid with
    | some c =>
      have := alistErase_length st.connectedClients cid c hl
      unfold connInv
      simp only
      omega
    | none =>
      unfold connInv
      simp only
      omega
  · intro now
    unfold connInv cleanupTick
    simp only
    have hle : (st.connectedClients.filter
        (fun p => decide (¬ ((now : Int) - (p.2.timestamp : Int) > 10000)))).length
        ≤ st.connectedClients.length := List.length_filter_le _ _
    omega
  · intro m cid c resOk hsome
    cases hl : alistLookup st.connectedClients cid with
    | none => rw [hl] at hsome; simp at hsome
    | some cd =>
      have herase := alistErase_length st.connectedClients cid cd hl
      rcases broadcastClientStep_registry st m cid c resOk with
        ⟨hc, ha⟩ | ⟨hc, ha⟩
      · unfold connInv
        rw [hc, ha]
        exact h
      · unfold connInv
        rw [hc, ha]
        omega

/-- Witness for C10 amended at a concrete state with one registered
session: adding a fresh client, removing a client, sweeping, and a
delivery step on the registered entry all preserve the counter/size
equality. -/
theorem c10_counter_invariant_amended_witness :
    connInv (addClient ⟨[("c1", ⟨"u", 0⟩)], [], [], [], 1⟩ "c2" "v" 5) ∧
    connInv (removeClient ⟨[("c1", ⟨"u", 0⟩)], [], [], [], 1⟩ "c1").1 ∧
    connInv (cleanupTick ⟨[("c1", ⟨"u", 0⟩)], [], [], [], 1⟩ 20001) ∧
    connInv (broadcastClientStep ⟨[("c1", ⟨"u", 0⟩)], [], [], [], 1⟩
      (Message.mk "m1" (some ["u"]) false) "c1" ⟨"u", 0⟩ true).1 := by
  have h := c10_counter_invariant_amended
    ⟨[("c1", ⟨"u", 0⟩)], [], [], [], 1⟩ (by decide)
  exact ⟨h.1 "c2" "v" 5 (by decide), h.2.1 "c1", h.2.2.1 20001,
    h.2.2.2 (Message.mk "m1" (some ["u"]) false) "c1" ⟨"u", 0⟩ true (by decide)⟩

/-! ### C2: capacity governor (services/MessageService.js lines 190-200,
controllers/MessageController.js lines 9-17) -/

/-- `MAX_CLIENTS_PER_WORKER = Math.ceil(15000 / os.cpus().length)`
(constructor, line 10). -/
def MAX_CLIENTS_PER_WORKER (cpus : Nat) : Nat := (15000 + cpus - 1) / cpus

/-- `getLoadFactor()` (lines 196-200): `activeConnections / capacity`. -/
def getLoadFactor (st : MessageService) (cpus : Nat) : ℚ :=
  (st.activeConnections : ℚ) / (MAX_CLIENTS_PER_WORKER cpus : ℚ)

/-- `isAtCapacity()` (lines 190-194): `load >= 0.9`. -/
def isAtCapacity (st : MessageService) (cpus : Nat) : Bool :=
  decide (getLoadFactor st cpus ≥ 9 / 10)

/-- `retryAfter = Math.min(Math.ceil(load * 5), 10)`
(MessageController.pollMessages, line 11) — note: the source has no
explicit lower clamp. -/
def retryAfterSeconds (load : ℚ) : ℤ :=
  min ⌈load * 5⌉ 10

/-- The admission gate of `pollMessages` (lines 9-17): `none` = admitted,
`some r` = rejected with 503 and `Retry-After: r`. -/
def pollAdmission (st : MessageService) (cpus : Nat) : Option ℤ :=
  if isAtCapacity st cpus then
    some (retryAfterSeconds (getLoadFactor st cpus))
  else none

/-- C2: a poll request is rejected for capacity iff
load = activeConnections / capacity is at least 0.9; on rejection the
Retry-After value equals clamp(⌈load·5⌉, 1, 10) (at load ≥ 0.9 the lower
clamp the source omits is vacuous, since ⌈load·5⌉ ≥ 5), so it always lies
in [1, 10] and is non-decreasing in the load. -/
theorem c2_capacity_rejection :
    (∀ st cpus, (pollAdmission st cpus).isSome = true ↔
      getLoadFactor st cpus ≥ 9 / 10) ∧
    (∀ st cpus r, pollAdmission st cpus = some r →
      r = retryAfterSeconds (getLoadFactor st cpus)) ∧
    (∀ load : ℚ, 9 / 10 ≤ load →
      retryAfterSeconds load = max 1 (min ⌈load * 5⌉ 10) ∧
      1 ≤ retryAfterSeconds load ∧ retryAfterSeconds load ≤ 10) ∧
    (∀ l l' : ℚ, l ≤ l' →
      retryAfterSeconds l ≤ retryAfterSeconds l') := by
  refine ⟨?_, ?_, ?_, ?_⟩
  · intro st cpus
    unfold pollAdmission isAtCapacity
    by_cases h : getLoadFactor st cpus ≥ 9 / 10
    · simp [h]
    · simp [h]
  · intro st cpus r hr
    unfold pollAdmission at hr
    by_cases h : isAtCapacity st cpus
    · rw [if_pos h] at hr
      exact (Option.some_inj.mp hr).symm
    · rw [if_neg h] at hr
      exact absurd hr (by simp)
  · intro load hload
    have h5 : (5 : ℤ) ≤ ⌈load * 5⌉ := by
      have h4 : (4 : ℤ) < ⌈load * 5⌉ := by
        apply Int.lt_ceil.mpr
        push_cast
        linarith
      omega
    have hmin : (1 : ℤ) ≤ min ⌈load * 5⌉ 10 := by
      rcases le_total (⌈load * 5⌉) 10 with hc | hc
      · rw [min_eq_left hc]; omega
      · rw [min_eq_right hc]; omega
    refine ⟨?_, ?_, ?_⟩
    · unfold retryAfterSeconds
      omega
    · unfold retryAfterSeconds
      omega
    · unfold retryAfterSeconds
      exact min_le_right _ _
  · intro l l' hll
    unfold retryAfterSeconds
    have : ⌈l * 5⌉ ≤ ⌈l' * 5⌉ :=
      Int.ceil_le_ceil (by linarith)
    omega

/-- Witness for C2 at concrete inputs: a worker with 4 cpus (capacity
3750) and 3400 active connections (load 68/75 ≥ 0.9) is rejected with the
clamped Retry-After, and the Retry-After is monotone from load 9/10 to
load 2. -/
theorem c2_capacity_rejection_witness :
    ((pollAdmission ⟨[], [], [], [], 3400⟩ 4).isSome = true ↔
      getLoadFactor ⟨[], [], [], [], 3400⟩ 4 ≥ 9 / 10) ∧
    (retryAfterSeconds (9 / 10) = max 1 (min ⌈(9 : ℚ) / 10 * 5⌉ 10) ∧
      1 ≤ retryAfterSeconds (9 / 10) ∧ retryAfterSeconds (9 / 10) ≤ 10) ∧
    retryAfterSeconds (9 / 10) ≤ retryAfterSeconds 2 := by
  refine ⟨c2_capacity_rejection.1 ⟨[], [], [], [], 3400⟩ 4,
    c2_capacity_rejection.2.2.1 (9 / 10) (by norm_num),
    c2_capacity_rejection.2.2.2 (9 / 10) 2 (by norm_num)⟩

/-! ### C9: cluster-master connection accounting (src/index.js lines 103-119)

On a worker message `{ type: "connections", count }` with a numeric
count, the master runs `workerConnections[worker.id] = msg.count` and
`totalConnections = Object.values(workerConnections).reduce((a,b)=>a+b,0)`. -/

/-- One reply handled by the master's per-worker message listener. -/
def coordStep (m : List (Nat × Int)) (workerId : Nat) (count : Int) :
    List (Nat × Int) :=
  alistSet m workerId count

/-- `Object.values(workerConnections).reduce((a, b) => a + b, 0)`. -/
def coordTotal (m : List (Nat × Int)) : Int :=
  (m.map Prod.snd).sum

/-- C9: each reply stores the reported count under the worker's id and
the total is recomputed as the sum of all stored counts; in particular
replies of 120, 95 and 0 from three distinct workers, starting from an
empty map, leave the total at 215 immediately after the third reply. -/
theorem c9_coordinator_total :
    (∀ m workerId count,
      alistLookup (coordStep m workerId count) workerId = some count ∧
      coordTotal (coordStep m workerId count) =
        ((coordStep m workerId count).map Prod.snd).sum) ∧
    (∀ w1 w2 w3 : Nat, w1 ≠ w2 → w1 ≠ w3 → w2 ≠ w3 →
      coordTotal (coordStep (coordStep (coordStep [] w1 120) w2 95) w3 0)
        = 215) := by
  constructor
  · intro m workerId count
    exact ⟨alistLookup_set_self m workerId count, rfl⟩
  · intro w1 w2 w3 h12 h13 h23
    have b12 : (w1 == w2) = false := beq_false_of_ne h12
    have b13 : (w1 == w3) = false := beq_false_of_ne h13
    have b23 : (w2 == w3) = false := beq_false_of_ne h23
    simp [coordStep, coordTotal, alistSet, b12, b13, b23]

/-- Witness for C9 at worker ids 1, 2, 3. -/
theorem c9_coordinator_total_witness :
    alistLookup (coordStep [] 7 42) 7 = some 42 ∧
    coordTotal (coordStep (coordStep (coordStep [] 1 120) 2 95) 3 0) = 215 := by
  exact ⟨(c9_coordinator_total.1 [] 7 42).1,
    c9_coordinator_total.2 1 2 3 (by decide) (by decide) (by decide)⟩

/-! ### C3: poll-session resolution (controllers/MessageController.js
lines 45-57, services/MessageService.js lines 212-219)

A poll that registers a session is subsequently targeted by resolution
attempts: a broadcast dispatch match, the 5 s `setTimeout` callback
(`if (messageService.removeClient(clientId)) res.json({type:"timeout"})`),
and the transport `close` handler (`removeClient(clientId)`).  The timer
is never cleared, so the timeout attempt always occurs.  Every attempt is
guarded by the session's presence in the registry — `removeClient`
returns `false` once the session is gone, and a dispatch to an
already-resolved session cannot produce a second client-visible response
(the held response handle has already been consumed) — and every
successful attempt removes the session.  `sessionRun` runs one session's
registry presence through a list of attempts, in arrival order, and
counts the attempts that succeed; `sessionWinner` names the first. -/

inductive PollResolution
  | dispatch
  | timerFire
  | disconnect
deriving DecidableEq, Repr

/-- Fold the guarded resolve-or-remove transition over the attempts that
target one session: `present` is whether the session is still registered.
Returns final presence and the number of attempts that succeeded. -/
def sessionRun : Bool → List PollResolution → Bool × Nat
  | p, [] => (p, 0)
  | p, _ :: rs =>
    if p then ((sessionRun false rs).1, (sessionRun false rs).2 + 1)
    else sessionRun false rs

/-- The attempt that actually resolved the session, if any. -/
def sessionWinner : Bool → List PollResolution → Option PollResolution
  | _, [] => none
  | p, r :: rs => if p then some r else sessionWinner false rs

theorem sessionRun_absent (rs : List PollResolution) :
    sessionRun false rs = (false, 0) := by
  induction rs with
  | nil => rfl
  | cons r rs ih => simpa [sessionRun] using ih

/-- C3: every registered poll session is resolved by exactly one of
dispatch match, timeout sentinel, or transport disconnect — never zero
(the timer attempt is always in the trace) and never two (the first
attempt wins, removes the session, and every later attempt is a no-op
because the presence-guarded resolve-or-remove transition is
idempotent); the winner is the first attempt to fire. -/
theorem c3_poll_resolved_exactly_once (tr : List PollResolution)
    (h : PollResolution.timerFire ∈ tr) :
    (sessionRun true tr).2 = 1 ∧
    (sessionRun true tr).1 = false ∧
    sessionWinner true tr = tr.head? := by
  cases tr with
  | nil => simp at h
  | cons r rs =>
    refine ⟨?_, ?_, ?_⟩
    · simp [sessionRun, sessionRun_absent]
    · simp [sessionRun, sessionRun_absent]
    · simp [sessionWinner]

/-- Witness for C3: a dispatch races the timer; the session is resolved
exactly once, by the dispatch, and the later timer attempt is a no-op. -/
theorem c3_poll_resolved_exactly_once_witness :
    (sessionRun true [PollResolution.dispatch, PollResolution.timerFire]).2 = 1 ∧
    (sessionRun true [PollResolution.dispatch, PollResolution.timerFire]).1 = false ∧
    sessionWinner true [PollResolution.dispatch, PollResolution.timerFire] =
      [PollResolution.dispatch, PollResolution.timerFire].head? :=
  c3_poll_resolved_exactly_once
    [PollResolution.dispatch, PollResolution.timerFire] (by decide)

/-! ### C6: the persistence batcher (services/MessageService.js lines
26-49, repositories/MessageRepository.js `saveBulkMessages`)

Each `BATCH_INTERVAL` tick with a non-empty pending batch synchronously
copies it and resets `messageBatch = []` (no suspension point between the
copy and the reset), then awaits the bulk write; messages arriving during
the await land in the fresh pending batch.  On a write error the failed
batch is re-merged after the arrivals when its size is at most 20,
otherwise it is dropped and its size logged as the durability loss. -/

/-- One flush tick: `pending` is `messageBatch` at tick time, `flushOk`
whether `saveBulkMessages` succeeded, `arrivals` the messages pushed by
`addToMessageBatch` during the awaited write.  Returns (next pending
batch, messages persisted, dropped-message count signalled). -/
def batchTick (pending arrivals : List Message) (flushOk : Bool) :
    List Message × List Message × Nat :=
  if pending.isEmpty then (arrivals, [], 0)
  else if flushOk then (arrivals, pending, 0)
  else if pending.length ≤ 20 then (arrivals ++ pending, [], 0)
  else (arrivals, [], pending.length)

/-- C6: when a flush of a non-empty batch fails, a batch of at most 20
messages is entirely re-merged into the next pending batch (no message of
it is lost, and concurrently arrived messages are kept ahead of it),
while a batch of more than 20 messages is dropped whole with its size
signalled as the durability loss; on success the flushed batch is
persisted and cleared, and the messages that arrived during the flush are
exactly the new pending batch. -/
theorem c6_batch_flush (pending arrivals : List Message) (flushOk : Bool)
    (hne : pending ≠ []) :
    (flushOk = false → pending.length ≤ 20 →
      (batchTick pending arrivals flushOk).1 = arrivals ++ pending ∧
      (∀ m ∈ pending, m ∈ (batchTick pending arrivals flushOk).1) ∧
      (batchTick pending arrivals flushOk).2.2 = 0) ∧
    (flushOk = false → 20 < pending.length →
      (batchTick pending arrivals flushOk).1 = arrivals ∧
      (batchTick pending arrivals flushOk).2.1 = [] ∧
      (batchTick pending arrivals flushOk).2.2 = pending.length) ∧
    (flushOk = true →
      (batchTick pending arrivals flushOk).2.1 = pending ∧
      (batchTick pending arrivals flushOk).1 = arrivals) := by
  have hemp : pending.isEmpty = false := by
    cases pending with
    | nil => exact absurd rfl hne
    | cons m ms => rfl
  refine ⟨?_, ?_, ?_⟩
  · intro hf hle
    subst hf
    have h1 : (batchTick pending arrivals false).1 = arrivals ++ pending := by
      simp [batchTick, hemp, hle]
    have h3 : (batchTick pending arrivals false).2.2 = 0 := by
      simp [batchTick, hemp, hle]
    refine ⟨h1, ?_, h3⟩
    intro m hm
    rw [h1]
    exact List.mem_append_right _ hm
  · intro hf hgt
    subst hf
    have hnle : ¬ pending.length ≤ 20 := by omega
    refine ⟨?_, ?_, ?_⟩ <;> simp [batchTick, hemp, hnle]
  · intro hf
    subst hf
    refine ⟨?_, ?_⟩ <;> simp [batchTick, hemp]

/-- Witness for C6: a failed flush of a 2-message batch is fully
re-merged behind the one message that arrived meanwhile. -/
theorem c6_batch_flush_witness :
    (batchTick [Message.mk "a" none false, Message.mk "b" none false]
        [Message.mk "c" none false] false).1 =
      [Message.mk "c" none false] ++
        [Message.mk "a" none false, Message.mk "b" none false] ∧
    (∀ m ∈ [Message.mk "a" none false, Message.mk "b" none false],
      m ∈ (batchTick [Message.mk "a" none false, Message.mk "b" none false]
        [Message.mk "c" none false] false).1) ∧
    (batchTick [Message.mk "a" none false, Message.mk "b" none false]
        [Message.mk "c" none false] false).2.2 = 0 :=
  (c6_batch_flush [Message.mk "a" none false, Message.mk "b" none false]
    [Message.mk "c" none false] false (by decide)).1 rfl (by decide)

/-! ### C4: the poll handler's queue scan -/

theorem scanFor_eq_find (t : List (String × DeliveryRecord)) (u : String)
    (l : List Message) :
    scanFor t u l = (l.find? (queueMatch t u)).map (fun m => (m, m.mid)) := by
  induction l with
  | nil => rfl
  | cons m rest ih =>
    by_cases h : queueMatch t u m
    · rw [List.find?_cons_of_pos _ h]
      simp [scanFor, h]
    · rw [List.find?_cons_of_neg _ h]
      simp only [scanFor, h, if_false, Bool.false_eq_true]
      exact ih

theorem scanFor_append_none (t : List (String × DeliveryRecord)) (u : String)
    (l₁ l₂ : List Message) (h : scanFor t u l₁ = none) :
    scanFor t u (l₁ ++ l₂) = scanFor t u l₂ := by
  induction l₁ with
  | nil => rfl
  | cons m rest ih =>
    by_cases hm : queueMatch t u m
    · simp [scanFor, hm] at h
    · simp only [scanFor, hm, if_false, Bool.false_eq_true] at h ⊢
      exact ih h

theorem scanFor_replicate_none (t : List (String × DeliveryRecord))
    (u : String) (m : Message) (n : Nat) (h : queueMatch t u m = false) :
    scanFor t u (List.replicate n m) = none := by
  induction n with
  | zero => rfl
  | succ k ih =>
    rw [List.replicate_succ]
    simp only [scanFor, h, if_false, Bool.false_eq_true]
    exact ih

theorem take_append_length {α : Type} (l₁ l₂ : List α) (n : Nat)
    (h : l₁.length = n) : (l₁ ++ l₂).take n = l₁ := by
  subst h
  exact List.take_left l₁ l₂

/-- A minimal message addressed to exactly one recipient, used as a
concrete test vector. -/
def msgFor (mid u : String) : Message := ⟨mid, some [u], false⟩

/-- Concrete state for the C4 counterexample: 1000 old messages for "v"
followed by one newer message for "u" (queue length 1001, no delivery
records). -/
def c4State : MessageService :=
  ⟨[], List.replicate 1000 (msgFor "mO" "v") ++ [msgFor "mU" "u"], [], [], 0⟩

/-- C4 counterexample: the scan examines the first (oldest) 1000 queued
messages, not the most recent 1000.  In `c4State` the message for "u" is
the most recent queued message, is undelivered, and would be found by a
scan of the most recent 1000 (`hasMessageForUserRecent`, modelled from
the spec's words), yet `hasMessageForUser` returns no match. -/
theorem c4_scan_counterexample :
    hasMessageForUser c4State "u" = none ∧
    hasMessageForUserRecent c4State "u" =
      some (msgFor "mU" "u", "mU") ∧
    queueMatch c4State.messageDeliveryTracker "u" (msgFor "mU" "u") = true := by
  have hmO : queueMatch c4State.messageDeliveryTracker "u" (msgFor "mO" "v")
      = false := by decide
  refine ⟨?_, ?_, by decide⟩
  · have htake : c4State.messageQueue.take 1000
        = List.replicate 1000 (msgFor "mO" "v") :=
      take_append_length _ [msgFor "mU" "u"] 1000
        (List.length_replicate 1000 _)
    unfold hasMessageForUser
    rw [htake]
    exact scanFor_replicate_none _ _ _ _ hmO
  · have hq : c4State.messageQueue =
        msgFor "mO" "v" ::
          (List.replicate 999 (msgFor "mO" "v") ++ [msgFor "mU" "u"]) := by
      show List.replicate 1000 (msgFor "mO" "v") ++ [msgFor "mU" "u"] = _
      rw [show (1000 : Nat) = 999 + 1 from rfl, List.replicate_succ]
      rfl
    have hlen : c4State.messageQueue.length = 1001 := by
      rw [hq]
      simp only [List.length_cons, List.length_append, List.length_replicate,
        List.length_nil]
    unfold hasMessageForUserRecent
    rw [hlen, hq, show (1001 - 1000 : Nat) = 1 from rfl]
    rw [show (msgFor "mO" "v" ::
        (List.replicate 999 (msgFor "mO" "v") ++ [msgFor "mU" "u"])).drop 1
        = List.replicate 999 (msgFor "mO" "v") ++ [msgFor "mU" "u"] from rfl]
    rw [scanFor_append_none _ _ _ _ (scanFor_replicate_none _ _ _ 999 hmO)]
    decide

/-- C4 amended: the poll handler's queue scan examines the oldest 1000
queued messages (a bounded prefix of the queue, K = 1000) and returns the
first among them whose recipients include the polling user and for which
that user is not yet in the delivery tracker's deliveredTo set; on a hit
the queue-hit path marks delivery atomically with the response (one
suspension-free transition `pollQueueHit`), and otherwise it returns no
match and leaves the state unchanged. -/
theorem c4_scan_oldest_first_match (st : MessageService) (u : String)
    (now : Nat) :
    hasMessageForUser st u =
      ((st.messageQueue.take 1000).find?
        (queueMatch st.messageDeliveryTracker u)).map (fun m => (m, m.mid)) ∧
    (∀ m mid, hasMessageForUser st u = some (m, mid) →
      mid = m.mid ∧
      pollQueueHit st u now = (markMessageDelivered st mid u now, some (m, mid))) ∧
    (hasMessageForUser st u = none → pollQueueHit st u now = (st, none)) := by
  refine ⟨scanFor_eq_find _ _ _, ?_, ?_⟩
  · intro m mid hfound
    constructor
    · have h1 := (scanFor_eq_find st.messageDeliveryTracker u
        (st.messageQueue.take 1000)).symm.trans hfound
      cases hfind : (st.messageQueue.take 1000).find?
          (queueMatch st.messageDeliveryTracker u) with
      | none => rw [hfind] at h1; simp at h1
      | some m' =>
        rw [hfind] at h1
        simp only [Option.map, Option.some_inj, Prod.mk.injEq] at h1
        rw [← h1.1]
        exact h1.2.symm
    · unfold pollQueueHit
      rw [hfound]
  · intro hnone
    unfold pollQueueHit
    rw [hnone]

/-- Witness for C4 amended at a concrete one-message state: the scan
finds the queued message for "u" and the hit path marks it delivered with
the response. -/
theorem c4_scan_oldest_first_match_witness :
    ("mA" = (msgFor "mA" "u").mid ∧
      pollQueueHit ⟨[], [msgFor "mA" "u"], [], [], 0⟩ "u" 7 =
        (markMessageDelivered ⟨[], [msgFor "mA" "u"], [], [], 0⟩ "mA" "u" 7,
          some (msgFor "mA" "u", "mA"))) ∧
    pollQueueHit ⟨[], [], [], [], 0⟩ "u" 7 = (⟨[], [], [], [], 0⟩, none) :=
  ⟨(c4_scan_oldest_first_match ⟨[], [msgFor "mA" "u"], [], [], 0⟩ "u" 7).2.1
      (msgFor "mA" "u") "mA" (by decide),
    (c4_scan_oldest_first_match ⟨[], [], [], [], 0⟩ "u" 7).2.2 (by decide)⟩

/-! ### C7: the enqueue step of `broadcastMessage`
(services/MessageService.js lines 97-184)

`broadcastMessage` returns 0 immediately when `message.recipients` is
empty (lines 103-105) — no slice runs and no enqueue happens.  Otherwise
its synchronous body runs `processBatch(clientEntries, 0)` — which
processes snapshot entries 0..999 inline and, when more remain, defers
the next slice with `setImmediate` — and then, still synchronously,
reaches the enqueue block (lines 178-181): `if (!message._queued) {
message._queued = true; this.messageQueue.push(message); }`.  Deferred
slices therefore run after the enqueue, on later event-loop turns. -/

inductive BEvent
  | slice (i : Nat)
  | enqueue
deriving DecidableEq, Repr

/-- Number of `processBatch` invocations for a snapshot of `n` entries
(slice size 1000): index 0 always runs; a continuation is scheduled while
`batchEnd < n`. -/
def numSlices (n : Nat) : Nat := max 1 ((n + 999) / 1000)

/-- Order of the slice-processing and enqueue events produced by one
`broadcastMessage` call under the cooperative (run-to-completion)
scheduler: empty recipients short-circuit before either; otherwise slice
0 runs synchronously, then the enqueue block, then the deferred slices in
index order. -/
def broadcastTrace (n : Nat) (recipients : List String) : List BEvent :=
  if recipients.isEmpty then []
  else
    BEvent.slice 0 :: BEvent.enqueue ::
      ((List.range (numSlices n)).drop 1).map BEvent.slice

/-- The property C7 asserts of the trace: the message is enqueued, and
every slice is processed before the enqueue. -/
def enqueueAfterAllSlices (tr : List BEvent) : Bool :=
  tr.contains BEvent.enqueue &&
    (tr.dropWhile (fun e => e != BEvent.enqueue)).all
      (fun e => e == BEvent.enqueue)

/-- The enqueue block itself: push once, guarded by the idempotent
`_queued` flag (the flag is set before the push, so the pushed message
carries it). -/
def enqueueStep (q : List Message) (m : Message) : List Message × Message :=
  if m.queued then (q, m)
  else (q ++ [{ m with queued := true }], { m with queued := true })

/-- C7 counterexample: with 1001 snapshot entries (two slices) and a
non-empty recipient list the enqueue event precedes the deferred slice 1,
so the enqueue does not happen after every slice; and with an empty
recipient list the message is never enqueued at all. -/
theorem c7_enqueue_counterexample :
    enqueueAfterAllSlices (broadcastTrace 1001 ["alice"]) = false ∧
    broadcastTrace 1001 ["alice"] =
      [BEvent.slice 0, BEvent.enqueue, BEvent.slice 1] ∧
    (broadcastTrace 5 []).contains BEvent.enqueue = false := by
  refine ⟨by decide, by decide, by decide⟩

/-- C7 amended: for every message with a non-empty recipient list given
to `broadcastMessage`, the message is enqueued into the message queue
exactly once — the enqueue runs in the synchronous body, after the first
slice but before any deferred later slices complete — and the idempotent
`_queued` flag guarantees that broadcasting the same message object again
adds no second queue entry. -/
theorem c7_enqueue_once_amended (n : Nat) (m : Message) (q : List Message)
    (hrec : (m.recipients.getD []).isEmpty = false)
    (hq : m.queued = false) :
    (broadcastTrace n (m.recipients.getD [])).countP
        (fun e => e == BEvent.enqueue) = 1 ∧
    (broadcastTrace n (m.recipients.getD [])).take 2 =
      [BEvent.slice 0, BEvent.enqueue] ∧
    (enqueueStep q m).1 = q ++ [{ m with queued := true }] ∧
    enqueueStep (enqueueStep q m).1 (enqueueStep q m).2 = enqueueStep q m := by
  have htr : broadcastTrace n (m.recipients.getD []) =
      BEvent.slice 0 :: BEvent.enqueue ::
        ((List.range (numSlices n)).drop 1).map BEvent.slice := by
    unfold broadcastTrace
    rw [hrec]
    simp
  refine ⟨?_, ?_, ?_, ?_⟩
  · rw [htr]
    simp only [List.countP_cons]
    have hmap : ∀ l : List Nat,
        (l.map BEvent.slice).countP (fun e => e == BEvent.enqueue) = 0 := by
      intro l
      induction l with
      | nil => rfl
      | cons i is ih => simp [List.countP_cons, ih]
    rw [hmap]
    decide
  · rw [htr]
    rfl
  · unfold enqueueStep
    rw [hq]
    simp
  · unfold enqueueStep
    rw [hq]
    simp

/-- Witness for C7 amended: a fresh two-recipient message broadcast over
a 1001-entry snapshot is enqueued exactly once and a repeat broadcast of
the now-flagged message leaves the queue unchanged. -/
theorem c7_enqueue_once_amended_witness :
    (broadcastTrace 1001
        ((Message.mk "m7" (some ["alice", "bob"]) false).recipients.getD
          [])).countP (fun e => e == BEvent.enqueue) = 1 ∧
    (broadcastTrace 1001
        ((Message.mk "m7" (some ["alice", "bob"]) false).recipients.getD
          [])).take 2 = [BEvent.slice 0, BEvent.enqueue] ∧
    (enqueueStep [] (Message.mk "m7" (some ["alice", "bob"]) false)).1 =
      [] ++ [{ Message.mk "m7" (some ["alice", "bob"]) false with
        queued := true }] ∧
    enqueueStep
        (enqueueStep [] (Message.mk "m7" (some ["alice", "bob"]) false)).1
        (enqueueStep [] (Message.mk "m7" (some ["alice", "bob"]) false)).2 =
      enqueueStep [] (Message.mk "m7" (some ["alice", "bob"]) false) :=
  c7_enqueue_once_amended 1001 (Message.mk "m7" (some ["alice", "bob"]) false)
    [] (by decide) (by decide)

/-! ### C1: at-most-once live delivery per recipient per message

The two delivery paths — the per-client loop of `broadcastMessage` and
the queue-hit path of the poll handler — are combined into one
interleaved run.  A run is a list of operations, each of which may emit a
delivery `(messageId, username)`; C1 states that while a message's
delivery-tracker entry exists (one dedup window, i.e. no TTL eviction in
between), a given recipient is delivered a given message at most once
across the whole run. -/

/-- Number of deliveries of message `mid` to user `u` in an emitted
delivery list. -/
def countDeliv (ds : List (String × String)) (mid u : String) : Nat :=
  ds.countP (fun p => p.1 == mid && p.2 == u)

/-- One atomic operation of the delivery machinery. -/
inductive DeliveryOp
  | binit (message : Message) (now : Nat)
  | bstep (message : Message) (clientId : String) (client : ClientData)
      (resOk : Bool)
  | pollStep (username : String) (now : Nat)

/-- Apply one operation; returns the new state and the deliveries it
emitted (at most one). -/
def deliveryStep (st : MessageService) :
    DeliveryOp → MessageService × List (String × String)
  | .binit m now => (broadcastInit st m now, [])
  | .bstep m cid c resOk =>
    ((broadcastClientStep st m cid c resOk).1,
      if (broadcastClientStep st m cid c resOk).2 then [(m.mid, c.username)]
      else [])
  | .pollStep u now =>
    ((pollQueueHit st u now).1,
      match (pollQueueHit st u now).2 with
      | some (_, mid) => [(mid, u)]
      | none => [])

/-- Run a list of operations, collecting all emitted deliveries. -/
def deliveryRun (st : MessageService) :
    List DeliveryOp → MessageService × List (String × String)
  | [] => (st, [])
  | op :: ops =>
    ((deliveryRun (deliveryStep st op).1 ops).1,
      (deliveryStep st op).2 ++ (deliveryRun (deliveryStep st op).1 ops).2)

/-- Remaining delivery budget of `u` under record `rec`: 0 once `u` is in
the delivered set, 1 before. -/
def bnd (u : String) (rec : DeliveryRecord) : Nat :=
  if rec.deliveredTo.contains u then 0 else 1

theorem countDeliv_nil (mid u : String) : countDeliv [] mid u = 0 := rfl

theorem countDeliv_single (a b mid u : String) :
    countDeliv [(a, b)] mid u = if a == mid && b == u then 1 else 0 := by
  simp [countDeliv, List.countP_cons]

theorem countDeliv_append (ds₁ ds₂ : List (String × String)) (mid u : String) :
    countDeliv (ds₁ ++ ds₂) mid u = countDeliv ds₁ mid u + countDeliv ds₂ mid u :=
  List.countP_append _ _ _

theorem bnd_le_one (u : String) (rec : DeliveryRecord) : bnd u rec ≤ 1 := by
  unfold bnd
  by_cases h : rec.deliveredTo.contains u
  · rw [if_pos h]; omega
  · rw [if_neg h]

/-- Soundness of the queue scan: a hit returns the message's own id and
a message that matches for the user (recipient, not yet delivered). -/
theorem hasMessageForUser_sound (st : MessageService) (u : String)
    (m0 : Message) (mid0 : String)
    (h : hasMessageForUser st u = some (m0, mid0)) :
    mid0 = m0.mid ∧ queueMatch st.messageDeliveryTracker u m0 = true := by
  unfold hasMessageForUser at h
  rw [scanFor_eq_find] at h
  cases hf : (st.messageQueue.take 1000).find?
      (queueMatch st.messageDeliveryTracker u) with
  | none => rw [hf] at h; simp at h
  | some m' =>
    rw [hf] at h
    simp only [Option.map, Option.some_inj, Prod.mk.injEq] at h
    have hp := List.find?_some hf
    exact ⟨h.2.symm.trans (by rw [h.1]), by rw [← h.1]; exact hp⟩

/-- Effect of `markMessageDelivered` on the tracked record of `mid`:
assuming the guard that a hit on the very pair `(mid, u)` can only happen
while `u` is still undelivered, the emitted delivery spends the budget. -/
theorem markMessageDelivered_bound (st : MessageService)
    (mid0 u' : String) (now : Nat) (mid u : String) (rec : DeliveryRecord)
    (h : alistLookup st.messageDeliveryTracker mid = some rec)
    (hguard : mid0 = mid → u' = u → rec.deliveredTo.contains u = false) :
    ∃ rec',
      alistLookup (markMessageDelivered st mid0 u' now).messageDeliveryTracker
        mid = some rec' ∧
      countDeliv [(mid0, u')] mid u + bnd u rec' ≤ bnd u rec := by
  by_cases hmid : mid0 = mid
  · subst hmid
    unfold markMessageDelivered
    rw [h]
    refine ⟨⟨setInsert rec.deliveredTo u', now⟩, ?_, ?_⟩
    · exact alistLookup_set_self _ _ _
    · by_cases hu : u' = u
      · subst hu
        have hcontains := hguard rfl rfl
        have h1 : (mid0 == mid0 && u' == u') = true := by simp
        rw [countDeliv_single, if_pos h1]
        unfold bnd
        rw [if_pos (setInsert_contains_self rec.deliveredTo u'),
          if_neg (by rw [hcontains]; exact Bool.false_ne_true)]
      · rw [countDeliv_single]
        have hbu : (u' == u) = false := beq_false_of_ne hu
        unfold bnd
        simp only [hbu, Bool.and_false, Bool.false_eq_true, if_false]
        have hins := setInsert_contains_ne rec.deliveredTo u u' hu
        simp only [hins]
        omega
  · have hne : (mid0 == mid) = false := beq_false_of_ne hmid
    have hcount : countDeliv [(mid0, u')] mid u = 0 := by
      rw [countDeliv_single, hne]
      simp
    refine ⟨rec, ?_, ?_⟩
    · unfold markMessageDelivered
      cases h0 : alistLookup st.messageDeliveryTracker mid0 with
      | none =>
        dsimp only
        rw [alistLookup_set_ne _ _ _ _ hmid]
        exact h
      | some r0 =>
        dsimp only
        rw [alistLookup_set_ne _ _ _ _ hmid]
        exact h
    · omega

/-- Effect of one `broadcastMessage` delivery-loop iteration on the
tracked record of `mid`: the emitted delivery (if any) spends the budget. -/
theorem broadcastClientStep_bound (st : MessageService) (m : Message)
    (cid : String) (c : ClientData) (resOk : Bool) (mid u : String)
    (rec : DeliveryRecord)
    (h : alistLookup st.messageDeliveryTracker mid = some rec) :
    ∃ rec',
      alistLookup
        (broadcastClientStep st m cid c resOk).1.messageDeliveryTracker mid
        = some rec' ∧
      countDeliv
          (if (broadcastClientStep st m cid c resOk).2
            then [(m.mid, c.username)] else []) mid u +
        bnd u rec' ≤ bnd u rec := by
  by_cases hrc : (m.recipients.getD []).contains c.username
  case neg =>
    have hstep : broadcastClientStep st m cid c resOk = (st, false) := by
      unfold broadcastClientStep
      dsimp only
      rw [if_neg hrc]
    rw [hstep]
    refine ⟨rec, h, ?_⟩
    simp only [Bool.false_eq_true, if_false, countDeliv_nil]
    omega
  case pos =>
    cases htr2 : alistLookup st.messageDeliveryTracker m.mid with
    | some rec2 =>
      by_cases hdel : rec2.deliveredTo.contains c.username
      · have hstep : broadcastClientStep st m cid c resOk = (st, false) := by
          unfold broadcastClientStep
          dsimp only
          rw [if_pos hrc, htr2]
          dsimp only
          rw [if_pos hdel]
        rw [hstep]
        refine ⟨rec, h, ?_⟩
        simp only [Bool.false_eq_true, if_false, countDeliv_nil]
        omega
      · by_cases hok : resOk
        · have hstep : broadcastClientStep st m cid c resOk =
              ({ st with
                  messageDeliveryTracker :=
                    alistSet st.messageDeliveryTracker m.mid
                      ⟨setInsert rec2.deliveredTo c.username, rec2.timestamp⟩,
                  connectedClients := alistErase st.connectedClients cid,
                  activeConnections := st.activeConnections - 1 }, true) := by
            unfold broadcastClientStep
            dsimp only
            rw [if_pos hrc, htr2]
            dsimp only
            rw [if_neg hdel, if_pos hok]
          rw [hstep]
          simp only [if_true]
          by_cases hmm : m.mid = mid
          · subst hmm
            have hrec : rec2 = rec := Option.some_inj.mp (htr2.symm.trans h)
            subst hrec
            refine ⟨⟨setInsert rec2.deliveredTo c.username, rec2.timestamp⟩,
              alistLookup_set_self _ _ _, ?_⟩
            by_cases hcu : c.username = u
            · subst hcu
              have h1 : (m.mid == m.mid && c.username == c.username) = true := by
                simp
              rw [countDeliv_single, if_pos h1]
              unfold bnd
              rw [if_pos (setInsert_contains_self rec2.deliveredTo c.username),
                if_neg hdel]
            · have h0 : (m.mid == m.mid && c.username == u) = false := by
                rw [beq_false_of_ne hcu, Bool.and_false]
              rw [countDeliv_single, if_neg (by rw [h0]; exact Bool.false_ne_true)]
              unfold bnd
              dsimp only
              rw [setInsert_contains_ne _ _ _ hcu]
              omega
          · refine ⟨rec, ?_, ?_⟩
            · dsimp only
              rw [alistLookup_set_ne _ _ _ _ hmm]
              exact h
            · have h0 : (m.mid == mid && c.username == u) = false := by
                rw [beq_false_of_ne hmm, Bool.false_and]
              rw [countDeliv_single, if_neg (by rw [h0]; exact Bool.false_ne_true)]
              omega
        · have hstep : broadcastClientStep st m cid c resOk =
              ({ st with
                  connectedClients := alistErase st.connectedClients cid,
                  activeConnections := st.activeConnections - 1 }, false) := by
            unfold broadcastClientStep
            dsimp only
            rw [if_pos hrc, htr2]
            dsimp only
            rw [if_neg hdel, if_neg hok]
          rw [hstep]
          refine ⟨rec, h, ?_⟩
          simp only [Bool.false_eq_true, if_false, countDeliv_nil]
          omega
    | none =>
      have hmm : m.mid ≠ mid := by
        intro e
        rw [e, h] at htr2
        exact Option.noConfusion htr2
      have hstep : broadcastClientStep st m cid c resOk =
          ({ st with
              connectedClients := alistErase st.connectedClients cid,
              activeConnections := st.activeConnections - 1 }, resOk) := by
        unfold broadcastClientStep
        dsimp only
        rw [if_pos hrc, htr2]
        dsimp only
        by_cases hok : resOk
        · rw [if_pos hok, hok]
        · rw [if_neg hok]
          cases hok2 : resOk with
          | true => exact absurd hok2 hok
          | false => rfl
      rw [hstep]
      refine ⟨rec, h, ?_⟩
      by_cases hok : resOk
      · rw [hok]
        simp only [if_true]
        have h0 : (m.mid == mid && c.username == u) = false := by
          rw [beq_false_of_ne hmm, Bool.false_and]
        rw [countDeliv_single, if_neg (by rw [h0]; exact Bool.false_ne_true)]
        omega
      · cases hok2 : resOk with
        | true => exact absurd hok2 hok
        | false =>
          simp only [Bool.false_eq_true, if_false, countDeliv_nil]
          omega

/-- The tracker-creation prologue never disturbs an existing record. -/
theorem broadcastInit_lookup (st : MessageService) (m : Message) (now : Nat)
    (mid : String) (rec : DeliveryRecord)
    (h : alistLookup st.messageDeliveryTracker mid = some rec) :
    alistLookup (broadcastInit st m now).messageDeliveryTracker mid
      = some rec := by
  unfold broadcastInit
  cases htr : alistLookup st.messageDeliveryTracker m.mid with
  | some r =>
    dsimp only
    exact h
  | none =>
    dsimp only
    have hne : m.mid ≠ mid := by
      intro e
      rw [e, h] at htr
      exact Option.noConfusion htr
    rw [alistLookup_set_ne _ _ _ _ hne]
    exact h

/-- Per-operation budget lemma: as long as the record for `mid` exists,
every operation preserves it (possibly enlarged) and any delivery of
`(mid, u)` it emits spends the remaining budget of `u`. -/
theorem deliveryStep_bound (st : MessageService) (op : DeliveryOp)
    (mid u : String) (rec : DeliveryRecord)
    (h : alistLookup st.messageDeliveryTracker mid = some rec) :
    ∃ rec',
      alistLookup (deliveryStep st op).1.messageDeliveryTracker mid
        = some rec' ∧
      countDeliv (deliveryStep st op).2 mid u + bnd u rec' ≤ bnd u rec := by
  cases op with
  | binit m now =>
    simp only [deliveryStep]
    refine ⟨rec, broadcastInit_lookup st m now mid rec h, ?_⟩
    rw [countDeliv_nil]
    omega
  | bstep m cid c resOk =>
    simp only [deliveryStep]
    exact broadcastClientStep_bound st m cid c resOk mid u rec h
  | pollStep u' now =>
    simp only [deliveryStep]
    cases hscan : hasMessageForUser st u' with
    | none =>
      have hph : pollQueueHit st u' now = (st, none) := by
        unfold pollQueueHit
        rw [hscan]
      rw [hph]
      refine ⟨rec, h, ?_⟩
      rw [countDeliv_nil]
      omega
    | some pr =>
      obtain ⟨m0, mid0⟩ := pr
      have hsound := hasMessageForUser_sound st u' m0 mid0 hscan
      have hph : pollQueueHit st u' now =
          (markMessageDelivered st mid0 u' now, some (m0, mid0)) := by
        unfold pollQueueHit
        rw [hscan]
      rw [hph]
      have hguard : mid0 = mid → u' = u →
          rec.deliveredTo.contains u = false := by
        intro e1 e2
        subst e2
        have hm : m0.mid = mid := by rw [← hsound.1]; exact e1
        have hq := hsound.2
        unfold queueMatch at hq
        cases hrs : m0.recipients with
        | none =>
          rw [hrs] at hq
          exact absurd hq (by simp)
        | some rs =>
          rw [hrs] at hq
          dsimp only at hq
          rw [hm, h] at hq
          dsimp only at hq
          rw [Bool.and_eq_true] at hq
          obtain ⟨_, hnot⟩ := hq
          rw [Bool.not_eq_true'] at hnot
          exact hnot
      exact markMessageDelivered_bound st mid0 u' now mid u rec h hguard

/-- Run-level budget: the whole interleaving delivers `(mid, u)` at most
`bnd u rec` times while the record exists. -/
theorem deliveryRun_bound (ops : List DeliveryOp) (st : MessageService)
    (mid u : String) (rec : DeliveryRecord)
    (h : alistLookup st.messageDeliveryTracker mid = some rec) :
    countDeliv (deliveryRun st ops).2 mid u ≤ bnd u rec := by
  induction ops generalizing st rec with
  | nil =>
    simp only [deliveryRun]
    rw [countDeliv_nil]
    exact Nat.zero_le _
  | cons op ops ih =>
    simp only [deliveryRun]
    rw [countDeliv_append]
    obtain ⟨rec', h', hle⟩ := deliveryStep_bound st op mid u rec h
    have hrest := ih (deliveryStep st op).1 rec' h'
    omega

/-- C1: for every message `mid` and recipient `u`, while the message's
delivery-tracker record exists (one dedup window), any interleaving of
`broadcastMessage` delivery iterations (with their tracker prologue) and
poll-handler queue-hit transitions hands the message to the recipient at
most once: the broadcast loop skips recipients already in `deliveredTo`
and records each delivery there, and `hasMessageForUser` never returns a
message to a user already in its `deliveredTo` set while
`markMessageDelivered` records each hand-off. -/
theorem c1_delivery_at_most_once (st : MessageService)
    (ops : List DeliveryOp) (mid u : String) (rec : DeliveryRecord)
    (h : alistLookup st.messageDeliveryTracker mid = some rec) :
    countDeliv (deliveryRun st ops).2 mid u ≤ 1 :=
  le_trans (deliveryRun_bound ops st mid u rec h) (bnd_le_one u rec)

/-- Witness for C1: a held session for "u" receives message "m1" by
broadcast and a subsequent poll by "u" finds nothing more — one delivery
in total within the window. -/
theorem c1_delivery_at_most_once_witness :
    countDeliv
      (deliveryRun
        ⟨[("c1", ⟨"u", 0⟩)], [msgFor "m1" "u"], [("m1", ⟨[], 0⟩)], [], 1⟩
        [DeliveryOp.bstep (msgFor "m1" "u") "c1" ⟨"u", 0⟩ true,
          DeliveryOp.pollStep "u" 5]).2 "m1" "u" ≤ 1 :=
  c1_delivery_at_most_once
    ⟨[("c1", ⟨"u", 0⟩)], [msgFor "m1" "u"], [("m1", ⟨[], 0⟩)], [], 1⟩
    [DeliveryOp.bstep (msgFor "m1" "u") "c1" ⟨"u", 0⟩ true,
      DeliveryOp.pollStep "u" 5]
    "m1" "u" ⟨[], 0⟩ (by decide)
